import Mathlib

/-!
Shallow embedding of the ETF HHI analysis pipeline (modules `data_loader.py`,
`metrics.py`, `main.py`, `portfolio_changes.py`, `weight_changes.py`).

Conventions of the embedding:
* a pandas DataFrame of holdings becomes a `List Row` (one element per row,
  in dataframe order);
* numeric columns (`Position`, `Stock_Price`, `Weight`, `ETF Market Value`)
  are modelled by `ℚ`;
* dates are modelled by `ℕ` (only ordering and equality of dates matter);
* a Python `dict` keyed by ticker becomes an association list, a Python `set`
  becomes a `Finset String`.
-/

namespace HHI

/-- One row of the holdings table, with the columns the analysed functions
read: `Date`, `Ticker`, `Position`, `Stock_Price`, `Weight`,
`ETF Market Value`. -/
structure Row where
  date : ℕ
  ticker : String
  position : ℚ
  stockPrice : ℚ
  weight : ℚ
  etfMarketValue : ℚ
deriving DecidableEq, Repr

/-- The cash-equivalent ticker list, `['XX', 'MVRXX', 'DGCXX', 'FEDXX']`,
repeated verbatim in `metrics.py`, `main.py`, `portfolio_changes.py` and
`weight_changes.py`. -/
def cash_funds : List String := ["XX", "MVRXX", "DGCXX", "FEDXX"]

/-- Embeds `metrics.calculate_holdings_hhi`: drop rows whose `Ticker` is a cash
fund, return `0.0` on an empty remainder, otherwise the sum of the squared
`Weight` values (no renormalisation). -/
def calculate_holdings_hhi (holdings_data : List Row) : ℚ :=
  let filtered_data := holdings_data.filter (fun r => !(cash_funds.contains r.ticker))
  if filtered_data.length = 0 then 0
  else (filtered_data.map (fun r => r.weight ^ 2)).sum

/-- The weight-column rescale of `data_loader.load_etf_holdings` (lines
60-62): if the maximum of the `Weight` column exceeds 1 the whole column is
divided by 100, otherwise it is returned unchanged.  `List.maximum` is
`⊥` on an empty column, matching pandas where `NaN > 1` is false. -/
def rescale_weight_column (ws : List ℚ) : List ℚ :=
  if ((1 : ℚ) : WithBot ℚ) < ws.maximum then ws.map (fun w => w / 100) else ws

/-- Embeds `df[df['Ticker'] == t].iloc[0]` as an `Option`: the first row of the
table whose `Ticker` equals `t`, or `none` when there is no such row. -/
def firstRowWith (rows : List Row) (t : String) : Option Row :=
  (rows.filter (fun r => r.ticker = t)).head?

/-- The per-ticker value stored in `pnl_data` by
`metrics.calculate_pnl_for_period`. -/
structure PnlRecord where
  pnl : ℚ
  start_price : ℚ
  end_price : ℚ
  start_position : ℚ
  end_position : ℚ
  weight : ℚ
deriving DecidableEq, Repr

/-- The body of the loop of `metrics.calculate_pnl_for_period` for one
ticker: skip cash funds (the literal list is repeated in the source), and
produce an entry exactly when the ticker has a row in both snapshots, using
the first matching row of each (`iloc[0]`), with
`pnl = start_position * (end_price - start_price)`. -/
def pnl_entry (holdings_start holdings_end : List Row) (t : String) :
    Option (String × PnlRecord) :=
  if cash_funds.contains t then none
  else
    match firstRowWith holdings_start t, firstRowWith holdings_end t with
    | some s, some e =>
        some (t, { pnl := s.position * (e.stockPrice - s.stockPrice),
                   start_price := s.stockPrice,
                   end_price := e.stockPrice,
                   start_position := s.position,
                   end_position := e.position,
                   weight := e.weight })
    | _, _ => none

/-- Embeds `set(start['Ticker']) | set(end['Ticker'])`, enumerated in first-occurrence
order.  The source iterates a Python `set`, whose order is interpreter
dependent; the claims settled here do not depend on the enumeration order. -/
def all_tickers (holdings_start holdings_end : List Row) : List String :=
  ((holdings_start.map (fun r => r.ticker)) ++ (holdings_end.map (fun r => r.ticker))).dedup

/-- Embeds `metrics.calculate_pnl_for_period`: the `pnl_data` dict as an association
list over the union of the tickers of the two snapshots. -/
def calculate_pnl_for_period (holdings_start holdings_end : List Row) :
    List (String × PnlRecord) :=
  (all_tickers holdings_start holdings_end).filterMap
    (pnl_entry holdings_start holdings_end)

/-- Rows whose `Ticker` is not cash-equivalent:
`etf_data[~etf_data['Ticker'].isin(cash_funds)]`. -/
def nonCashRows (rows : List Row) : List Row :=
  rows.filter (fun r => !(cash_funds.contains r.ticker))

/-- Embeds `sorted(etf_data['Date'].unique())`: the distinct dates of the table in
increasing order.  In `main.py`, `portfolio_changes.py` and
`weight_changes.py` this is computed from the table BEFORE the cash-fund
filter is applied. -/
def sorted_unique_dates (rows : List Row) : List ℕ :=
  ((rows.map (fun r => r.date)).dedup).insertionSort (fun a b => a ≤ b)

/-- Embeds `etf_data[etf_data['Date'] == d]`: the rows of one date. -/
def rowsOn (rows : List Row) (d : ℕ) : List Row :=
  rows.filter (fun r => r.date = d)

/-- Embeds `len(daily_holdings[~daily_holdings['Ticker'].isin(cash_funds)])`. -/
def holdings_count (daily_holdings : List Row) : ℕ :=
  (nonCashRows daily_holdings).length

/-- The descending-by-pnl comparison realised by
`sorted(positive_pnl.items(), key=lambda x: x[1], reverse=True)`.  A stable
insertion sort along this relation reproduces Python's stable descending
sort. -/
def pnlGE (a b : String × ℚ) : Prop := b.2 ≤ a.2

instance : DecidableRel pnlGE := fun a b => inferInstanceAs (Decidable (b.2 ≤ a.2))

instance : IsTotal (String × ℚ) pnlGE := ⟨fun a b => le_total b.2 a.2⟩

instance : IsTrans (String × ℚ) pnlGE := ⟨fun _ _ _ h1 h2 => le_trans h2 h1⟩

/-- Embeds the dict comprehension keeping `data['pnl'] > 0` entries of
`main.py` line 89. -/
def positive_pnl (pnl : List (String × ℚ)) : List (String × ℚ) :=
  pnl.filter (fun p => 0 < p.2)

/-- Embeds `sorted(positive_pnl.items(), key=lambda x: x[1], reverse=True)`. -/
def sorted_positive (pnl : List (String × ℚ)) : List (String × ℚ) :=
  (positive_pnl pnl).insertionSort pnlGE

/-- The accumulation loop of `main.py` lines 97-104: walk the sorted list
keeping a running sum, append each ticker, and stop as soon as the running
sum reaches the threshold — the crossing entry is included. -/
def select50 (thr acc : ℚ) : List (String × ℚ) → List (String × ℚ)
  | [] => []
  | p :: rest =>
      if thr ≤ acc + p.2 then [p] else p :: select50 thr (acc + p.2) rest

/-- The entries selected by the loop: threshold
`total_positive_pnl * 0.5` with the total taken over the sorted positive
list, running sum starting at `0`. -/
def selected_pnl (pnl : List (String × ℚ)) : List (String × ℚ) :=
  select50 (((sorted_positive pnl).map (fun p => p.2)).sum * (1 / 2)) 0
    (sorted_positive pnl)

/-- Embeds `main.py` lines 87-107: the `Top_50pct_Profit_Tickers` list — empty when
no entry has positive pnl (including an empty `pnl_data`), otherwise the
tickers of the selected entries. -/
def top_50pct (pnl : List (String × ℚ)) : List String :=
  if (positive_pnl pnl).isEmpty then []
  else (selected_pnl pnl).map (fun p => p.1)

/-- One output row of `main.calculate_daily_hhi_and_contributors`. -/
structure DailyResult where
  date : ℕ
  hhi : ℚ
  holdings_count : ℕ
  top_50pct_count : ℕ
  top_50pct_tickers : List String
deriving DecidableEq, Repr

/-- The `i == 0` branch of the loop (lines 61-73): HHI and holdings count,
contributor count `0` and empty ticker list. -/
def dailyResultFirst (rows : List Row) (d : ℕ) : DailyResult :=
  { date := d,
    hhi := calculate_holdings_hhi (rowsOn rows d),
    holdings_count := holdings_count (rowsOn rows d),
    top_50pct_count := 0,
    top_50pct_tickers := [] }

/-- The `i >= 1` branch (lines 74-121): pnl against the immediately
preceding date in the series, then the top-50% selection. -/
def dailyResultLater (rows : List Row) (prevD d : ℕ) : DailyResult :=
  let pnl_data := calculate_pnl_for_period (rowsOn rows prevD) (rowsOn rows d)
  let tks := top_50pct (pnl_data.map (fun p => (p.1, p.2.pnl)))
  { date := d,
    hhi := calculate_holdings_hhi (rowsOn rows d),
    holdings_count := holdings_count (rowsOn rows d),
    top_50pct_count := tks.length,
    top_50pct_tickers := tks }

def dailyLoop (rows : List Row) (prevD : ℕ) : List ℕ → List DailyResult
  | [] => []
  | d :: ds => dailyResultLater rows prevD d :: dailyLoop rows d ds

/-- Embeds `main.calculate_daily_hhi_and_contributors` over the sorted unique
dates of the (already range-filtered) table. -/
def calculate_daily_hhi_and_contributors (rows : List Row) : List DailyResult :=
  match sorted_unique_dates rows with
  | [] => []
  | d :: ds => dailyResultFirst rows d :: dailyLoop rows d ds

/-- The `Action` column of the change log. -/
inductive Action
  | Initial
  | Added
  | Removed
deriving DecidableEq, Repr

/-- One entry of `changes_list` in
`portfolio_changes.track_portfolio_changes`. -/
structure ChangeEvent where
  date : ℕ
  action : Action
  ticker : String
deriving DecidableEq, Repr

/-- Embeds `set(etf_data[etf_data['Date'] == d]['Ticker'].unique())`, enumerated in
first-occurrence order.  The Python `set` iteration order is interpreter
dependent (string hashing is seed-randomised); `track_portfolio_changes_ord`
below makes that order an explicit parameter. -/
def tickerSet (filtered : List Row) (d : ℕ) : List String :=
  ((filtered.filter (fun r => r.date = d)).map (fun r => r.ticker)).dedup

/-- Embeds `current_tickers - prev_tickers` (line 72). -/
def added_tickers (filtered : List Row) (prevD currD : ℕ) : List String :=
  (tickerSet filtered currD).filter (fun t => ¬ t ∈ tickerSet filtered prevD)

/-- Embeds `prev_tickers - current_tickers` (line 75). -/
def removed_tickers (filtered : List Row) (prevD currD : ℕ) : List String :=
  (tickerSet filtered prevD).filter (fun t => ¬ t ∈ tickerSet filtered currD)

/-- The `i >= 1` body of the loop of `track_portfolio_changes`, with the
set-iteration order made explicit through `ord` (the source iterates Python
sets; `ord` is expected to enumerate its argument, i.e. return a
permutation of it). -/
def pairEventsOrd (ord : List String → List String)
    (filtered : List Row) (prevD currD : ℕ) : List ChangeEvent :=
  ((ord (added_tickers filtered prevD currD)).map
      (fun t => { date := currD, action := Action.Added, ticker := t }))
    ++ ((ord (removed_tickers filtered prevD currD)).map
      (fun t => { date := currD, action := Action.Removed, ticker := t }))

def eventsLoopOrd (ord : List String → List String) (filtered : List Row)
    (prevD : ℕ) : List ℕ → List ChangeEvent
  | [] => []
  | d :: ds =>
      pairEventsOrd ord filtered prevD d ++ eventsLoopOrd ord filtered d ds

/-- Embeds `portfolio_changes.track_portfolio_changes`, `changes_list` output:
`unique_dates` is taken from the UNFILTERED table (line 42), the ticker sets
from the cash-filtered table (line 46); the first date yields one `Initial`
event per ticker, later dates yield `Added`/`Removed` events from the set
differences.  `ord` is the set-iteration order. -/
def track_portfolio_changes_ord (ord : List String → List String)
    (rows : List Row) : List ChangeEvent :=
  match sorted_unique_dates rows with
  | [] => []
  | d :: ds =>
      ((ord (tickerSet (nonCashRows rows) d)).map
          (fun t => { date := d, action := Action.Initial, ticker := t }))
        ++ eventsLoopOrd ord (nonCashRows rows) d ds

/-- The change log with the identity enumeration (first-occurrence order). -/
def track_portfolio_changes (rows : List Row) : List ChangeEvent :=
  track_portfolio_changes_ord (fun l => l) rows

def pairEvents (filtered : List Row) (prevD currD : ℕ) : List ChangeEvent :=
  pairEventsOrd (fun l => l) filtered prevD currD

/-- One row of the DataFrame built by
`weight_changes.calculate_weight_changes` (lines 120-136; the
`Company_Name` string bookkeeping is omitted). -/
structure WCRow where
  date : ℕ
  ticker : String
  prev_weight : ℚ
  current_weight : ℚ
  weight_change : ℚ
  prev_position : ℚ
  current_position : ℚ
  position_change : ℚ
  prev_price : ℚ
  current_price : ℚ
  price_change : ℚ
  weight_change_from_position : ℚ
  weight_change_from_price : ℚ
  residual : ℚ
deriving DecidableEq, Repr

/-- The per-ticker body of `calculate_weight_changes` (lines 62-136):
values default to `0` when the ticker is missing on a date, the two effect
terms substitute `0` unless their guard `prev_total > 0 and prev_... > 0`
holds, and the residual is the weight change minus the two effects. -/
def weight_change_row (currD : ℕ) (t : String) (prev_total : ℚ)
    (prevOpt currOpt : Option Row) : WCRow :=
  let prev_weight := match prevOpt with | some r => r.weight | none => 0
  let prev_position := match prevOpt with | some r => r.position | none => 0
  let prev_price := match prevOpt with | some r => r.stockPrice | none => 0
  let current_weight := match currOpt with | some r => r.weight | none => 0
  let current_position := match currOpt with | some r => r.position | none => 0
  let current_price := match currOpt with | some r => r.stockPrice | none => 0
  let weight_change := current_weight - prev_weight
  let position_change := current_position - prev_position
  let weight_change_from_position :=
    if 0 < prev_total ∧ 0 < prev_price
    then (position_change * prev_price) / prev_total else 0
  let weight_change_from_price :=
    if 0 < prev_total ∧ 0 < prev_position
    then ((current_price - prev_price) * prev_position) / prev_total else 0
  { date := currD,
    ticker := t,
    prev_weight := prev_weight,
    current_weight := current_weight,
    weight_change := weight_change,
    prev_position := prev_position,
    current_position := current_position,
    position_change := position_change,
    prev_price := prev_price,
    current_price := current_price,
    price_change := if 0 < prev_price then current_price - prev_price else 0,
    weight_change_from_position := weight_change_from_position,
    weight_change_from_price := weight_change_from_price,
    residual := weight_change - weight_change_from_position - weight_change_from_price }

/-- One consecutive date pair of `calculate_weight_changes` (lines 47-136):
`prev_total` is the `ETF Market Value` of the first previous-date row (`0`
when that date has no non-cash row), tickers are the union over both dates
minus cash funds, and a row is kept only when the ticker has positive
weight on at least one of the two dates. -/
def wc_pair (filtered : List Row) (prevD currD : ℕ) : List WCRow :=
  let prev_holdings := filtered.filter (fun r => r.date = prevD)
  let current_holdings := filtered.filter (fun r => r.date = currD)
  let prev_total :=
    match prev_holdings.head? with
    | some r => r.etfMarketValue
    | none => 0
  ((((prev_holdings.map (fun r => r.ticker))
        ++ (current_holdings.map (fun r => r.ticker))).dedup.filter
      (fun t => !(cash_funds.contains t))).map
    (fun t => weight_change_row currD t prev_total
        (firstRowWith prev_holdings t) (firstRowWith current_holdings t))).filter
    (fun rec => 0 < rec.prev_weight ∨ 0 < rec.current_weight)

def wc_loop (filtered : List Row) (prevD : ℕ) : List ℕ → List WCRow
  | [] => []
  | d :: ds => wc_pair filtered prevD d ++ wc_loop filtered d ds

/-- Embeds `weight_changes.calculate_weight_changes`: dates from the unfiltered
table, rows from the cash-filtered table, one block per consecutive date
pair. -/
def calculate_weight_changes (rows : List Row) : List WCRow :=
  match sorted_unique_dates rows with
  | [] => []
  | d :: ds => wc_loop (nonCashRows rows) d ds

/-- Descending-by-`Weight_Change` comparison: `nlargest(3, 'Weight_Change')`
with pandas' default tie handling (keep the first occurrences) is a stable
descending sort followed by `take 3`. -/
def wcDesc (a b : WCRow) : Prop := b.weight_change ≤ a.weight_change

instance : DecidableRel wcDesc :=
  fun a b => inferInstanceAs (Decidable (b.weight_change ≤ a.weight_change))

instance : IsTotal WCRow wcDesc := ⟨fun a b => le_total b.weight_change a.weight_change⟩

instance : IsTrans WCRow wcDesc := ⟨fun _ _ _ h1 h2 => le_trans h2 h1⟩

/-- Ascending-by-`Weight_Change` comparison for `nsmallest(3, 'Weight_Change')`. -/
def wcAsc (a b : WCRow) : Prop := a.weight_change ≤ b.weight_change

instance : DecidableRel wcAsc :=
  fun a b => inferInstanceAs (Decidable (a.weight_change ≤ b.weight_change))

instance : IsTotal WCRow wcAsc := ⟨fun a b => le_total a.weight_change b.weight_change⟩

instance : IsTrans WCRow wcAsc := ⟨fun _ _ _ h1 h2 => le_trans h1 h2⟩

/-- One row of the summary of
`weight_changes.create_daily_weight_change_summary`; the two top lists keep
the selected rows (the source renders them as strings). -/
structure DailySummaryRow where
  date : ℕ
  stocks_with_changes : ℕ
  total_position_impact : ℚ
  total_price_impact : ℚ
  top_weight_increases : List WCRow
  top_weight_decreases : List WCRow
  stocks_added : ℕ
  stocks_removed : ℕ
deriving DecidableEq, Repr

/-- The per-date body of `create_daily_weight_change_summary` (lines
160-182): the top lists are `nlargest`/`nsmallest` 3 over the rows whose
weight change exceeds `0.001` / falls below `-0.001`. -/
def summary_for_date (date_data : List WCRow) (d : ℕ) : DailySummaryRow :=
  let significant_weight_increases :=
    ((date_data.filter (fun r => 1 / 1000 < r.weight_change)).insertionSort wcDesc).take 3
  let significant_weight_decreases :=
    ((date_data.filter (fun r => r.weight_change < -(1 / 1000))).insertionSort wcAsc).take 3
  { date := d,
    stocks_with_changes :=
      (date_data.filter (fun r => 1 / 10000 < |r.weight_change|)).length,
    total_position_impact :=
      (date_data.map (fun r => |r.weight_change_from_position|)).sum,
    total_price_impact :=
      (date_data.map (fun r => |r.weight_change_from_price|)).sum,
    top_weight_increases := significant_weight_increases,
    top_weight_decreases := significant_weight_decreases,
    stocks_added := (date_data.filter (fun r => r.prev_weight = 0)).length,
    stocks_removed := (date_data.filter (fun r => r.current_weight = 0)).length }

/-- Embeds `create_daily_weight_change_summary`: one summary row per distinct date
of the weight-change table. -/
def create_daily_weight_change_summary (df : List WCRow) : List DailySummaryRow :=
  ((df.map (fun r => r.date)).dedup).map
    (fun d => summary_for_date (df.filter (fun r => r.date = d)) d)

/-- Modelled from the spec's words, for comparison with the code: "the 3
largest positive weight changes" of a date, with no significance
threshold. -/
def spec_top_increases (date_data : List WCRow) : List WCRow :=
  ((date_data.filter (fun r => 0 < r.weight_change)).insertionSort wcDesc).take 3

/-- A one-day table holding two non-cash tickers, used to exhibit the
dependence of the change log on the set-iteration order. -/
def twoTickerDay : List Row :=
  [{ date := 1, ticker := "A", position := 1, stockPrice := 1,
     weight := 1, etfMarketValue := 2 },
   { date := 1, ticker := "B", position := 1, stockPrice := 1,
     weight := 1, etfMarketValue := 2 }]

/-- The spec's §8 scenario, date 1: AAPL plus one cash row. -/
def scenPrev : List Row :=
  [{ date := 1, ticker := "AAPL", position := 100, stockPrice := 10,
     weight := 1, etfMarketValue := 2000 },
   { date := 1, ticker := "XX", position := 0, stockPrice := 1,
     weight := 1, etfMarketValue := 2000 }]


/-- The spec's §8 scenario, date 2: AAPL, a new ticker and the cash row. -/
def scenCurr : List Row :=
  [{ date := 2, ticker := "AAPL", position := 100, stockPrice := 12,
     weight := 1, etfMarketValue := 2000 },
   { date := 2, ticker := "NEW", position := 50, stockPrice := 4,
     weight := 1, etfMarketValue := 2000 },
   { date := 2, ticker := "XX", position := 0, stockPrice := 1,
     weight := 1, etfMarketValue := 2000 }]


/-- A two-day single-ticker table used to exercise the weight-change
pipeline on concrete data. -/
def wcRows : List Row :=
  [{ date := 1, ticker := "A", position := 10, stockPrice := 5,
     weight := 1, etfMarketValue := 100 },
   { date := 2, ticker := "A", position := 12, stockPrice := 6,
     weight := 1, etfMarketValue := 100 }]


/-- A three-day table whose middle date holds only a cash row. -/
def allCashMiddle : List Row :=
  [{ date := 1, ticker := "AAPL", position := 1, stockPrice := 1,
     weight := 1, etfMarketValue := 2 },
   { date := 2, ticker := "XX", position := 0, stockPrice := 1,
     weight := 1, etfMarketValue := 2 },
   { date := 3, ticker := "AAPL", position := 1, stockPrice := 1,
     weight := 1, etfMarketValue := 2 }]


/-- A weight-change row whose change is positive but below the `0.001`
significance threshold of the daily summary. -/
def smallIncreaseRow : WCRow :=
  { date := 1, ticker := "A", prev_weight := 1 / 10,
    current_weight := 1 / 10 + 1 / 2000, weight_change := 1 / 2000,
    prev_position := 1, current_position := 1, position_change := 0,
    prev_price := 1, current_price := 1, price_change := 0,
    weight_change_from_position := 0, weight_change_from_price := 0,
    residual := 1 / 2000 }


/-- A weight-change row whose change clears the significance threshold. -/
def bigIncreaseRow : WCRow :=
  { date := 1, ticker := "A", prev_weight := 1 / 10,
    current_weight := 1 / 10 + 1 / 100, weight_change := 1 / 100,
    prev_position := 1, current_position := 2, position_change := 1,
    prev_price := 1, current_price := 1, price_change := 0,
    weight_change_from_position := 1 / 100, weight_change_from_price := 0,
    residual := 0 }


theorem coe_lt_maximum_iff (a : ℚ) (ws : List ℚ) :
    (a : WithBot ℚ) < ws.maximum ↔ ∃ b ∈ ws, a < b := by
  induction ws with
  | nil => simp
  | cons h t ih => simp [List.maximum_cons, lt_max_iff, ih]

theorem firstRowWith_cons (a : Row) (l : List Row) (t : String) :
    firstRowWith (a :: l) t = if a.ticker = t then some a else firstRowWith l t := by
  unfold firstRowWith
  rw [List.filter_cons]
  by_cases h : a.ticker = t
  · simp [h]
  · simp [h]

theorem firstRowWith_eq_some_iff (rows : List Row) (t : String) :
    (∃ s, firstRowWith rows t = some s) ↔ ∃ r ∈ rows, r.ticker = t := by
  induction rows with
  | nil => simp [firstRowWith]
  | cons a l ih =>
    rw [firstRowWith_cons]
    by_cases h : a.ticker = t
    · rw [if_pos h]
      exact ⟨fun _ => ⟨a, List.mem_cons_self a l, h⟩, fun _ => ⟨a, rfl⟩⟩
    · rw [if_neg h, ih]
      constructor
      · rintro ⟨r, hr, hrt⟩
        exact ⟨r, List.mem_cons_of_mem a hr, hrt⟩
      · rintro ⟨r, hr, hrt⟩
        rcases List.mem_cons.mp hr with rfl | hr2
        · exact absurd hrt h
        · exact ⟨r, hr2, hrt⟩

theorem firstRowWith_mem (rows : List Row) (t : String) (s : Row)
    (h : firstRowWith rows t = some s) : s ∈ rows ∧ s.ticker = t := by
  unfold firstRowWith at h
  have hmem : s ∈ rows.filter (fun r => r.ticker = t) := by
    cases hl : rows.filter (fun r => r.ticker = t) with
    | nil => rw [hl] at h; cases h
    | cons b l2 =>
      rw [hl] at h
      simp only [List.head?_cons, Option.some.injEq] at h
      exact h ▸ List.mem_cons_self b l2
  have := List.mem_filter.mp hmem
  exact ⟨this.1, by simpa using this.2⟩

theorem pnl_entry_eq_some (hs he : List Row) (a t : String) (rec : PnlRecord)
    (h : pnl_entry hs he a = some (t, rec)) :
    t = a ∧ ¬ a ∈ cash_funds ∧
      ∃ s e, firstRowWith hs a = some s ∧ firstRowWith he a = some e ∧
        rec.pnl = s.position * (e.stockPrice - s.stockPrice) := by
  unfold pnl_entry at h
  by_cases hc : cash_funds.contains a
  · rw [if_pos hc] at h; cases h
  · rw [if_neg hc] at h
    cases hfs : firstRowWith hs a with
    | none => rw [hfs] at h; cases h
    | some s =>
      cases hfe : firstRowWith he a with
      | none => rw [hfs, hfe] at h; cases h
      | some e =>
        rw [hfs, hfe] at h
        simp only [Option.some.injEq, Prod.mk.injEq] at h
        refine ⟨h.1.symm, by simpa using hc, s, e, rfl, rfl, ?_⟩
        rw [← h.2]

/-- C3: `calculate_pnl_for_period` has an entry for a ticker exactly when
the ticker is not a cash fund and has a row in both snapshots; the entry's
`pnl` is `start.position * (end.price - start.price)` computed from the
first matching row of each snapshot.  In particular a ticker present in
only one snapshot has no entry. -/
theorem C3_pnl_record_iff_present_in_both (hs he : List Row) (t : String) :
    ((∃ rec, (t, rec) ∈ calculate_pnl_for_period hs he) ↔
      (¬ t ∈ cash_funds ∧ (∃ r ∈ hs, r.ticker = t) ∧ (∃ r ∈ he, r.ticker = t)))
    ∧ (∀ rec, (t, rec) ∈ calculate_pnl_for_period hs he →
        ∃ s e, firstRowWith hs t = some s ∧ firstRowWith he t = some e ∧
          rec.pnl = s.position * (e.stockPrice - s.stockPrice)) := by
  constructor
  · constructor
    · rintro ⟨rec, hmem⟩
      rcases List.mem_filterMap.mp hmem with ⟨a, _, hentry⟩
      rcases pnl_entry_eq_some hs he a t rec hentry with ⟨rfl, hc, s, e, hfs, hfe, _⟩
      exact ⟨hc, (firstRowWith_eq_some_iff hs t).mp ⟨s, hfs⟩,
        (firstRowWith_eq_some_iff he t).mp ⟨e, hfe⟩⟩
    · rintro ⟨hc, hstart, hend⟩
      rcases (firstRowWith_eq_some_iff hs t).mpr hstart with ⟨s, hfs⟩
      rcases (firstRowWith_eq_some_iff he t).mpr hend with ⟨e, hfe⟩
      rcases hstart with ⟨rs, hrs, hts⟩
      have htick : t ∈ all_tickers hs he := by
        unfold all_tickers
        rw [List.mem_dedup, List.mem_append]
        exact Or.inl (List.mem_map.mpr ⟨rs, hrs, hts⟩)
      refine ⟨⟨s.position * (e.stockPrice - s.stockPrice), s.stockPrice,
               e.stockPrice, s.position, e.position, e.weight⟩,
        List.mem_filterMap.mpr ⟨t, htick, ?_⟩⟩
      unfold pnl_entry
      rw [if_neg (by simpa using hc), hfs, hfe]
  · intro rec hmem
    rcases List.mem_filterMap.mp hmem with ⟨a, _, hentry⟩
    rcases pnl_entry_eq_some hs he a t rec hentry with ⟨rfl, _, s, e, hfs, hfe, hval⟩
    exact ⟨s, e, hfs, hfe, hval⟩

theorem hhi_eq_sum (h : List Row) :
    calculate_holdings_hhi h
      = ((h.filter (fun r => !(cash_funds.contains r.ticker))).map
          (fun r => r.weight ^ 2)).sum := by
  unfold calculate_holdings_hhi
  by_cases hl : (h.filter (fun r => !(cash_funds.contains r.ticker))).length = 0
  · rw [if_pos hl]
    rw [List.length_eq_zero] at hl
    rw [hl]
    simp
  · rw [if_neg hl]

/-- C1: `calculate_holdings_hhi` returns exactly the sum of squared `Weight`
values over the non-cash rows, with no renormalisation; hence it is invariant
under permutation of the rows, is `0` on an empty or all-cash snapshot, and
is `1` for a single non-cash holding of weight `1`. -/
theorem C1_hhi_sum_of_squares (h h2 : List Row) (hp : h.Perm h2)
    (r : Row) (hr : ¬ r.ticker ∈ cash_funds) (hw : r.weight = 1) :
    calculate_holdings_hhi h
        = ((h.filter (fun r => !(cash_funds.contains r.ticker))).map
            (fun r => r.weight ^ 2)).sum
      ∧ calculate_holdings_hhi h = calculate_holdings_hhi h2
      ∧ ((∀ x ∈ h, x.ticker ∈ cash_funds) → calculate_holdings_hhi h = 0)
      ∧ calculate_holdings_hhi [r] = 1 := by
  refine ⟨hhi_eq_sum h, ?_, ?_, ?_⟩
  · rw [hhi_eq_sum h, hhi_eq_sum h2]
    exact ((hp.filter _).map _).sum_eq
  · intro hall
    rw [hhi_eq_sum h]
    have hnil : h.filter (fun r => !(cash_funds.contains r.ticker)) = [] := by
      rw [List.filter_eq_nil_iff]
      intro a ha
      simpa using hall a ha
    rw [hnil]
    simp
  · rw [hhi_eq_sum]
    have hc : (cash_funds.contains r.ticker) = false := by
      simpa using hr
    simp [List.filter_cons, hc, hw, hr]

theorem C1_witness :
    ([(⟨0, "AAPL", 1, 1, (1:ℚ)/2, 10⟩ : Row), ⟨0, "XX", 0, 1, 1/2, 10⟩].Perm
        [⟨0, "XX", 0, 1, 1/2, 10⟩, ⟨0, "AAPL", 1, 1, 1/2, 10⟩])
      ∧ calculate_holdings_hhi
          [(⟨0, "AAPL", 1, 1, (1:ℚ)/2, 10⟩ : Row), ⟨0, "XX", 0, 1, 1/2, 10⟩]
        = calculate_holdings_hhi
          [(⟨0, "XX", 0, 1, (1:ℚ)/2, 10⟩ : Row), ⟨0, "AAPL", 1, 1, 1/2, 10⟩] := by
  have hperm : ([(⟨0, "AAPL", 1, 1, (1:ℚ)/2, 10⟩ : Row), ⟨0, "XX", 0, 1, 1/2, 10⟩].Perm
      [⟨0, "XX", 0, 1, 1/2, 10⟩, ⟨0, "AAPL", 1, 1, 1/2, 10⟩]) :=
    List.Perm.swap _ _ _
  exact ⟨hperm,
    (C1_hhi_sum_of_squares _ _ hperm ⟨0, "AAPL", 1, 1, 1, 10⟩
      (by decide) rfl).2.1⟩

/-- C7: the load-time rescale divides every weight by 100 exactly when some
weight exceeds 1, and leaves the column untouched when no weight exceeds 1;
the detection is global over the whole column. -/
theorem C7_weight_rescale (ws : List ℚ) :
    ((∃ b ∈ ws, 1 < b) → rescale_weight_column ws = ws.map (fun w => w / 100))
      ∧ ((∀ b ∈ ws, b ≤ 1) → rescale_weight_column ws = ws) := by
  constructor
  · intro hex
    unfold rescale_weight_column
    rw [if_pos ((coe_lt_maximum_iff 1 ws).mpr hex)]
  · intro hall
    unfold rescale_weight_column
    rw [if_neg]
    intro hlt
    rcases (coe_lt_maximum_iff 1 ws).mp hlt with ⟨b, hb, h1b⟩
    exact absurd (hall b hb) (not_le.mpr h1b)

theorem C7_witness :
    (∃ b ∈ [(5.6 : ℚ), 3.2], 1 < b)
      ∧ rescale_weight_column [(5.6 : ℚ), 3.2] = [5.6 / 100, 3.2 / 100]
      ∧ rescale_weight_column [(0.056 : ℚ), 0.032] = [0.056, 0.032] := by
  have hex : ∃ b ∈ [(5.6 : ℚ), 3.2], 1 < b := ⟨5.6, by simp, by norm_num⟩
  refine ⟨hex, ?_, ?_⟩
  · rw [(C7_weight_rescale [(5.6 : ℚ), 3.2]).1 hex]
    rfl
  · exact (C7_weight_rescale [(0.056 : ℚ), 0.032]).2 (by intro b hb; fin_cases hb <;> norm_num)

theorem select50_subset (thr : ℚ) :
    ∀ (l : List (String × ℚ)) (acc : ℚ) (x : String × ℚ),
      x ∈ select50 thr acc l → x ∈ l := by
  intro l
  induction l with
  | nil => intro acc x hx; simp [select50] at hx
  | cons p rest ih =>
    intro acc x hx
    simp only [select50] at hx
    by_cases h : thr ≤ acc + p.2
    · rw [if_pos h] at hx
      rw [List.mem_singleton.mp hx]
      exact List.mem_cons_self _ _
    · rw [if_neg h] at hx
      rcases List.mem_cons.mp hx with heq | hx2
      · rw [heq]
        exact List.mem_cons_self _ _
      · exact List.mem_cons_of_mem p (ih _ x hx2)

theorem select50_reaches (thr : ℚ) :
    ∀ (l : List (String × ℚ)) (acc : ℚ),
      thr ≤ acc + ((l.map (fun p => p.2)).sum) →
      thr ≤ acc + (((select50 thr acc l).map (fun p => p.2)).sum) := by
  intro l
  induction l with
  | nil => intro acc h; simpa [select50] using h
  | cons p rest ih =>
    intro acc h
    simp only [select50]
    by_cases hc : thr ≤ acc + p.2
    · rw [if_pos hc]
      simpa using hc
    · rw [if_neg hc]
      simp only [List.map_cons, List.sum_cons] at h ⊢
      have h2 : thr ≤ (acc + p.2) + ((rest.map (fun p => p.2)).sum) := by linarith
      have h3 := ih (acc + p.2) h2
      linarith

theorem select50_minimal (thr : ℚ) :
    ∀ (l : List (String × ℚ)) (acc : ℚ), acc < thr →
      acc + ((((select50 thr acc l).dropLast).map (fun p => p.2)).sum) < thr := by
  intro l
  induction l with
  | nil => intro acc h; simpa [select50] using h
  | cons p rest ih =>
    intro acc h
    simp only [select50]
    by_cases hc : thr ≤ acc + p.2
    · rw [if_pos hc]
      simpa using h
    · rw [if_neg hc]
      push_neg at hc
      have h3 := ih (acc + p.2) hc
      cases hrest : select50 thr (acc + p.2) rest with
      | nil => simpa using h
      | cons q l2 =>
        rw [hrest] at h3
        have hdl : (p :: q :: l2).dropLast = p :: (q :: l2).dropLast := rfl
        rw [hdl]
        simp only [List.map_cons, List.sum_cons] at h3 ⊢
        linarith

theorem select50_sorted (thr : ℚ) :
    ∀ (l : List (String × ℚ)) (acc : ℚ), List.Sorted pnlGE l →
      List.Sorted pnlGE (select50 thr acc l) := by
  intro l
  induction l with
  | nil => intro acc _; simp [select50, List.sorted_nil]
  | cons p rest ih =>
    intro acc h
    rcases List.sorted_cons.mp h with ⟨hp, hrest⟩
    simp only [select50]
    by_cases hc : thr ≤ acc + p.2
    · rw [if_pos hc]
      exact List.sorted_singleton p
    · rw [if_neg hc]
      exact List.sorted_cons.mpr
        ⟨fun b hb => hp b (select50_subset thr rest (acc + p.2) b hb), ih _ hrest⟩

/-- C2: the top-50%-contributor selection returns the tickers of the
positive-pnl entries sorted descending by pnl, accumulated until the
running sum first reaches half the total positive pnl, stopping ticker
included: the selected entries are sorted descending, their cumulative pnl
reaches the `0.5 × total` threshold, and dropping the last selected entry
falls below it; when no entry has positive pnl the returned list is empty,
and the first day of any series reports contributor count `0` with an
empty ticker list. -/
theorem C2_top50_contributors (pnl : List (String × ℚ)) (rows : List Row)
    (d0 : ℕ) (ds : List ℕ)
    (hpos : ∃ p ∈ pnl, 0 < p.2)
    (hdates : sorted_unique_dates rows = d0 :: ds) :
    top_50pct pnl = (selected_pnl pnl).map (fun p => p.1)
    ∧ List.Sorted pnlGE (selected_pnl pnl)
    ∧ ((positive_pnl pnl).map (fun p => p.2)).sum * (1 / 2)
        ≤ ((selected_pnl pnl).map (fun p => p.2)).sum
    ∧ (((selected_pnl pnl).dropLast).map (fun p => p.2)).sum
        < ((positive_pnl pnl).map (fun p => p.2)).sum * (1 / 2)
    ∧ (∀ pnl2 : List (String × ℚ), (∀ p ∈ pnl2, p.2 ≤ 0) → top_50pct pnl2 = [])
    ∧ (∀ res ∈ (calculate_daily_hhi_and_contributors rows).head?,
        res.top_50pct_count = 0 ∧ res.top_50pct_tickers = []) := by
  have hne : positive_pnl pnl ≠ [] := by
    rcases hpos with ⟨p, hp, h0⟩
    intro hnil
    have hmem : p ∈ positive_pnl pnl := List.mem_filter.mpr ⟨hp, by simpa using h0⟩
    rw [hnil] at hmem
    cases hmem
  have hsum_eq : ((sorted_positive pnl).map (fun p => p.2)).sum
      = ((positive_pnl pnl).map (fun p => p.2)).sum :=
    ((List.perm_insertionSort pnlGE (positive_pnl pnl)).map (fun p => p.2)).sum_eq
  have htot_pos : 0 < ((positive_pnl pnl).map (fun p => p.2)).sum := by
    apply List.sum_pos
    · intro a ha
      rcases List.mem_map.mp ha with ⟨p, hp, rfl⟩
      have := List.mem_filter.mp hp
      simpa using this.2
    · simpa using hne
  refine ⟨?_, ?_, ?_, ?_, ?_, ?_⟩
  · unfold top_50pct
    rw [if_neg]
    simpa [List.isEmpty_iff] using hne
  · exact select50_sorted _ _ 0
      (List.sorted_insertionSort pnlGE (positive_pnl pnl))
  · have h := select50_reaches
      (((sorted_positive pnl).map (fun p => p.2)).sum * (1 / 2))
      (sorted_positive pnl) 0 (by rw [hsum_eq]; linarith)
    unfold selected_pnl
    rw [← hsum_eq]
    linarith
  · have h := select50_minimal
      (((sorted_positive pnl).map (fun p => p.2)).sum * (1 / 2))
      (sorted_positive pnl) 0 (by rw [hsum_eq]; linarith)
    unfold selected_pnl
    rw [← hsum_eq]
    linarith
  · intro pnl2 hnp
    unfold top_50pct
    rw [if_pos]
    have : positive_pnl pnl2 = [] := by
      rw [positive_pnl, List.filter_eq_nil_iff]
      intro p hp
      simpa using not_lt.mpr (hnp p hp)
    simp [this]
  · intro res hres
    have hcalc : calculate_daily_hhi_and_contributors rows
        = dailyResultFirst rows d0 :: dailyLoop rows d0 ds := by
      unfold calculate_daily_hhi_and_contributors
      rw [hdates]
    rw [hcalc] at hres
    simp only [List.head?_cons, Option.mem_def, Option.some.injEq] at hres
    rw [← hres]
    exact ⟨rfl, rfl⟩

theorem C2_witness :
    (∃ p ∈ [("A", (3 : ℚ)), ("B", 2), ("C", -1)], 0 < p.2)
    ∧ sorted_unique_dates
        [({ date := 1, ticker := "A", position := 1, stockPrice := 1,
            weight := 1, etfMarketValue := 1 } : Row)] = [1]
    ∧ top_50pct [("A", (3 : ℚ)), ("B", 2), ("C", -1)] = ["A"] := by
  have h := C2_top50_contributors [("A", (3 : ℚ)), ("B", 2), ("C", -1)]
      [{ date := 1, ticker := "A", position := 1, stockPrice := 1,
         weight := 1, etfMarketValue := 1 }] 1 []
      ⟨("A", 3), by simp, by norm_num⟩ (by decide)
  refine ⟨⟨("A", 3), by simp, by norm_num⟩, by decide, ?_⟩
  rw [h.1]
  norm_num [selected_pnl, sorted_positive, positive_pnl, pnlGE, select50,
    List.insertionSort, List.orderedInsert]

theorem C3_witness :
    (∃ rec, ("AAPL", rec) ∈ calculate_pnl_for_period scenPrev scenCurr)
    ∧ ¬ (∃ rec, ("NEW", rec) ∈ calculate_pnl_for_period scenPrev scenCurr) := by
  constructor
  · exact (C3_pnl_record_iff_present_in_both scenPrev scenCurr ("AAPL")).1.mpr
      ⟨by decide,
       ⟨{ date := 1, ticker := "AAPL", position := 100, stockPrice := 10,
          weight := 1, etfMarketValue := 2000 }, List.mem_cons_self _ _, rfl⟩,
       ⟨{ date := 2, ticker := "AAPL", position := 100, stockPrice := 12,
          weight := 1, etfMarketValue := 2000 }, List.mem_cons_self _ _, rfl⟩⟩
  · intro hex
    have h2 := (C3_pnl_record_iff_present_in_both scenPrev scenCurr ("NEW")).1.mp hex
    rcases h2 with ⟨-, ⟨r, hr, hrt⟩, -⟩
    rcases List.mem_cons.mp hr with h1 | hr
    · rw [h1] at hrt
      exact absurd hrt (by decide)
    rcases List.mem_cons.mp hr with h1 | hr
    · rw [h1] at hrt
      exact absurd hrt (by decide)
    · cases hr

theorem weight_change_row_identity (currD : ℕ) (t : String) (prev_total : ℚ)
    (prevOpt currOpt : Option Row) :
    (weight_change_row currD t prev_total prevOpt currOpt).weight_change_from_position
      + (weight_change_row currD t prev_total prevOpt currOpt).weight_change_from_price
      + (weight_change_row currD t prev_total prevOpt currOpt).residual
      = (weight_change_row currD t prev_total prevOpt currOpt).weight_change := by
  simp only [weight_change_row]
  ring

theorem wc_pair_identity (filtered : List Row) (pd cd : ℕ) :
    ∀ rec ∈ wc_pair filtered pd cd,
      rec.weight_change_from_position + rec.weight_change_from_price + rec.residual
        = rec.weight_change := by
  intro rec h
  simp only [wc_pair] at h
  rcases List.mem_filter.mp h with ⟨h2, -⟩
  rcases List.mem_map.mp h2 with ⟨t, -, heq⟩
  rw [← heq]
  exact weight_change_row_identity _ _ _ _ _

theorem mem_wc_loop (filtered : List Row) :
    ∀ (ds : List ℕ) (d0 : ℕ) (rec : WCRow), rec ∈ wc_loop filtered d0 ds →
      ∃ pd cd, rec ∈ wc_pair filtered pd cd := by
  intro ds
  induction ds with
  | nil => intro d0 rec h; simp [wc_loop] at h
  | cons d rest ih =>
    intro d0 rec h
    simp only [wc_loop] at h
    rcases List.mem_append.mp h with h1 | h2
    · exact ⟨d0, d, h1⟩
    · exact ih d rec h2

/-- C5: every record emitted by `calculate_weight_changes` satisfies
`weight_change_from_position + weight_change_from_price + residual =
weight_change` exactly (the residual is defined as the weight change minus
the two effect terms). -/
theorem C5_residual_identity (rows : List Row) :
    ∀ rec ∈ calculate_weight_changes rows,
      rec.weight_change_from_position + rec.weight_change_from_price + rec.residual
        = rec.weight_change := by
  intro rec h
  unfold calculate_weight_changes at h
  cases hd : sorted_unique_dates rows with
  | nil => rw [hd] at h; cases h
  | cons d ds =>
    rw [hd] at h
    rcases mem_wc_loop _ _ _ _ h with ⟨pd, cd, h2⟩
    exact wc_pair_identity _ _ _ _ h2

/-- C6: the two effect terms of the weight-change decomposition substitute
`0` whenever `prev_total ≤ 0` or the relevant previous value
(`prev_price` for the position effect, `prev_position` for the price
effect) is `≤ 0`; the division happens only under a strictly positive
guard. -/
theorem C6_degenerate_guards (currD : ℕ) (t : String) (prev_total : ℚ)
    (prevOpt currOpt : Option Row) :
    ((prev_total ≤ 0
        ∨ (weight_change_row currD t prev_total prevOpt currOpt).prev_price ≤ 0) →
      (weight_change_row currD t prev_total prevOpt currOpt).weight_change_from_position = 0)
    ∧ ((prev_total ≤ 0
        ∨ (weight_change_row currD t prev_total prevOpt currOpt).prev_position ≤ 0) →
      (weight_change_row currD t prev_total prevOpt currOpt).weight_change_from_price = 0)
    ∧ ((0 < prev_total
        ∧ 0 < (weight_change_row currD t prev_total prevOpt currOpt).prev_price) →
      (weight_change_row currD t prev_total prevOpt currOpt).weight_change_from_position
        = ((weight_change_row currD t prev_total prevOpt currOpt).position_change
            * (weight_change_row currD t prev_total prevOpt currOpt).prev_price)
          / prev_total)
    ∧ ((0 < prev_total
        ∧ 0 < (weight_change_row currD t prev_total prevOpt currOpt).prev_position) →
      (weight_change_row currD t prev_total prevOpt currOpt).weight_change_from_price
        = (((weight_change_row currD t prev_total prevOpt currOpt).current_price
            - (weight_change_row currD t prev_total prevOpt currOpt).prev_price)
            * (weight_change_row currD t prev_total prevOpt currOpt).prev_position)
          / prev_total) := by
  simp only [weight_change_row]
  refine ⟨?_, ?_, ?_, ?_⟩
  · intro h
    rw [if_neg]
    rintro ⟨h1, h2⟩
    rcases h with h | h
    · linarith
    · linarith
  · intro h
    rw [if_neg]
    rintro ⟨h1, h2⟩
    rcases h with h | h
    · linarith
    · linarith
  · rintro ⟨h1, h2⟩
    rw [if_pos ⟨h1, h2⟩]
  · rintro ⟨h1, h2⟩
    rw [if_pos ⟨h1, h2⟩]

theorem C5_witness :
    (weight_change_row 2 ("A") 100
        (some { date := 1, ticker := "A", position := 10, stockPrice := 5,
                weight := 1, etfMarketValue := 100 })
        (some { date := 2, ticker := "A", position := 12, stockPrice := 6,
                weight := 1, etfMarketValue := 100 }))
      ∈ calculate_weight_changes wcRows
    ∧ (weight_change_row 2 ("A") 100
        (some { date := 1, ticker := "A", position := 10, stockPrice := 5,
                weight := 1, etfMarketValue := 100 })
        (some { date := 2, ticker := "A", position := 12, stockPrice := 6,
                weight := 1, etfMarketValue := 100 })).weight_change_from_position
      + (weight_change_row 2 ("A") 100
        (some { date := 1, ticker := "A", position := 10, stockPrice := 5,
                weight := 1, etfMarketValue := 100 })
        (some { date := 2, ticker := "A", position := 12, stockPrice := 6,
                weight := 1, etfMarketValue := 100 })).weight_change_from_price
      + (weight_change_row 2 ("A") 100
        (some { date := 1, ticker := "A", position := 10, stockPrice := 5,
                weight := 1, etfMarketValue := 100 })
        (some { date := 2, ticker := "A", position := 12, stockPrice := 6,
                weight := 1, etfMarketValue := 100 })).residual
      = (weight_change_row 2 ("A") 100
        (some { date := 1, ticker := "A", position := 10, stockPrice := 5,
                weight := 1, etfMarketValue := 100 })
        (some { date := 2, ticker := "A", position := 12, stockPrice := 6,
                weight := 1, etfMarketValue := 100 })).weight_change := by
  have hmem : (weight_change_row 2 ("A") 100
      (some { date := 1, ticker := "A", position := 10, stockPrice := 5,
              weight := 1, etfMarketValue := 100 })
      (some { date := 2, ticker := "A", position := 12, stockPrice := 6,
              weight := 1, etfMarketValue := 100 }))
      ∈ calculate_weight_changes wcRows := by
    norm_num [calculate_weight_changes, sorted_unique_dates, nonCashRows,
      cash_funds, wc_loop, wc_pair, firstRowWith, List.insertionSort,
      List.orderedInsert, wcRows, List.filter, weight_change_row]
  exact ⟨hmem, C5_residual_identity wcRows _ hmem⟩

theorem C6_witness :
    ((0 : ℚ) ≤ 0 ∨ (weight_change_row 1 ("A") 0 none none).prev_price ≤ 0)
    ∧ (weight_change_row 1 ("A") 0 none none).weight_change_from_position = 0
    ∧ (weight_change_row 1 ("A") 0 none none).weight_change_from_price = 0
    ∧ ((0 : ℚ) < 100
        ∧ 0 < (weight_change_row 2 ("A") 100
            (some { date := 1, ticker := "A", position := 10, stockPrice := 5,
                    weight := 1, etfMarketValue := 100 })
            (some { date := 2, ticker := "A", position := 12, stockPrice := 6,
                    weight := 1, etfMarketValue := 100 })).prev_price)
    ∧ (weight_change_row 2 ("A") 100
          (some { date := 1, ticker := "A", position := 10, stockPrice := 5,
                  weight := 1, etfMarketValue := 100 })
          (some { date := 2, ticker := "A", position := 12, stockPrice := 6,
                  weight := 1, etfMarketValue := 100 })).weight_change_from_position
        = ((weight_change_row 2 ("A") 100
            (some { date := 1, ticker := "A", position := 10, stockPrice := 5,
                    weight := 1, etfMarketValue := 100 })
            (some { date := 2, ticker := "A", position := 12, stockPrice := 6,
                    weight := 1, etfMarketValue := 100 })).position_change
              * (weight_change_row 2 ("A") 100
            (some { date := 1, ticker := "A", position := 10, stockPrice := 5,
                    weight := 1, etfMarketValue := 100 })
            (some { date := 2, ticker := "A", position := 12, stockPrice := 6,
                    weight := 1, etfMarketValue := 100 })).prev_price)
          / 100 := by
  have hd : ((0 : ℚ) ≤ 0 ∨ (weight_change_row 1 ("A") 0 none none).prev_price ≤ 0) :=
    Or.inl le_rfl
  have hguards := C6_degenerate_guards 1 ("A") 0 none none
  have hpos : (0 : ℚ) < 100
      ∧ 0 < (weight_change_row 2 ("A") 100
          (some { date := 1, ticker := "A", position := 10, stockPrice := 5,
                  weight := 1, etfMarketValue := 100 })
          (some { date := 2, ticker := "A", position := 12, stockPrice := 6,
                  weight := 1, etfMarketValue := 100 })).prev_price := by
    constructor
    · norm_num
    · norm_num [weight_change_row]
  exact ⟨hd, hguards.1 hd, hguards.2.1 hd, hpos,
    (C6_degenerate_guards 2 ("A") 100 _ _).2.2.1 hpos⟩

theorem added_toFinset (f : List Row) (pd cd : ℕ) :
    (added_tickers f pd cd).toFinset
      = (tickerSet f cd).toFinset \ (tickerSet f pd).toFinset := by
  ext t
  simp [added_tickers, List.mem_filter]

theorem removed_toFinset (f : List Row) (pd cd : ℕ) :
    (removed_tickers f pd cd).toFinset
      = (tickerSet f pd).toFinset \ (tickerSet f cd).toFinset := by
  ext t
  simp [removed_tickers, List.mem_filter]

theorem filter_map_mk_same (l : List String) (d : ℕ) (a : Action) :
    ((l.map (fun t => ({ date := d, action := a, ticker := t } : ChangeEvent))).filter
        (fun e => e.action = a)).map (fun e => e.ticker) = l := by
  induction l with
  | nil => rfl
  | cons x xs ih => simp [List.filter_cons, ih]

theorem filter_map_mk_other (l : List String) (d : ℕ) (a b : Action) (hne : ¬ a = b) :
    (l.map (fun t => ({ date := d, action := a, ticker := t } : ChangeEvent))).filter
        (fun e => e.action = b) = [] := by
  induction l with
  | nil => rfl
  | cons x xs ih => simp [List.filter_cons, hne, ih]

theorem pairEvents_filter_added (f : List Row) (pd cd : ℕ) :
    ((pairEvents f pd cd).filter (fun e => e.action = Action.Added)).map
        (fun e => e.ticker)
      = added_tickers f pd cd := by
  unfold pairEvents pairEventsOrd
  rw [List.filter_append,
    filter_map_mk_other (removed_tickers f pd cd) cd Action.Removed Action.Added
      (by simp),
    List.append_nil, filter_map_mk_same]

theorem pairEvents_filter_removed (f : List Row) (pd cd : ℕ) :
    ((pairEvents f pd cd).filter (fun e => e.action = Action.Removed)).map
        (fun e => e.ticker)
      = removed_tickers f pd cd := by
  unfold pairEvents pairEventsOrd
  rw [List.filter_append,
    filter_map_mk_other (added_tickers f pd cd) cd Action.Added Action.Removed
      (by simp),
    List.nil_append, filter_map_mk_same]

theorem eventsLoop_no_initial (f : List Row) :
    ∀ (ds : List ℕ) (pd : ℕ), ∀ e ∈ eventsLoopOrd (fun l => l) f pd ds,
      e.action ≠ Action.Initial := by
  intro ds
  induction ds with
  | nil => intro pd e h; simp [eventsLoopOrd] at h
  | cons d rest ih =>
    intro pd e h
    simp only [eventsLoopOrd] at h
    rcases List.mem_append.mp h with h1 | h2
    · simp only [pairEventsOrd] at h1
      rcases List.mem_append.mp h1 with h3 | h3 <;>
        rcases List.mem_map.mp h3 with ⟨t, -, heq⟩ <;> rw [← heq] <;> simp
    · exact ih d e h2

/-- C4: for any pair of dates, the `Added`/`Removed` events of the change
log carry exactly the two set differences (one event per element, all
dated the current date), the two differences are disjoint, the
current-date ticker set is the previous-date set minus the removals plus
the additions, and the `Initial` events of the whole log are exactly the
non-cash tickers of the first date. -/
theorem C4_turnover_events (rows : List Row) (prevD currD d0 : ℕ) (ds : List ℕ)
    (hdates : sorted_unique_dates rows = d0 :: ds) :
    ((pairEvents (nonCashRows rows) prevD currD).filter
        (fun e => e.action = Action.Added)).map (fun e => e.ticker)
      = added_tickers (nonCashRows rows) prevD currD
    ∧ ((pairEvents (nonCashRows rows) prevD currD).filter
        (fun e => e.action = Action.Removed)).map (fun e => e.ticker)
      = removed_tickers (nonCashRows rows) prevD currD
    ∧ (added_tickers (nonCashRows rows) prevD currD).Nodup
    ∧ (removed_tickers (nonCashRows rows) prevD currD).Nodup
    ∧ (∀ e ∈ pairEvents (nonCashRows rows) prevD currD, e.date = currD)
    ∧ Disjoint (added_tickers (nonCashRows rows) prevD currD).toFinset
        (removed_tickers (nonCashRows rows) prevD currD).toFinset
    ∧ (tickerSet (nonCashRows rows) currD).toFinset
        = ((tickerSet (nonCashRows rows) prevD).toFinset
            \ (removed_tickers (nonCashRows rows) prevD currD).toFinset)
          ∪ (added_tickers (nonCashRows rows) prevD currD).toFinset
    ∧ ((track_portfolio_changes rows).filter
        (fun e => e.action = Action.Initial)).map (fun e => e.ticker)
      = tickerSet (nonCashRows rows) d0 := by
  refine ⟨pairEvents_filter_added _ _ _, pairEvents_filter_removed _ _ _,
    ?_, ?_, ?_, ?_, ?_, ?_⟩
  · unfold added_tickers tickerSet
    exact (List.nodup_dedup _).filter _
  · unfold removed_tickers tickerSet
    exact (List.nodup_dedup _).filter _
  · intro e he
    simp only [pairEvents, pairEventsOrd] at he
    rcases List.mem_append.mp he with h3 | h3 <;>
      rcases List.mem_map.mp h3 with ⟨t, -, heq⟩ <;> rw [← heq]
  · rw [added_toFinset, removed_toFinset]
    exact disjoint_sdiff_sdiff
  · rw [added_toFinset, removed_toFinset]
    ext x
    simp only [Finset.mem_union, Finset.mem_sdiff]
    tauto
  · have hcalc : track_portfolio_changes rows
        = ((tickerSet (nonCashRows rows) d0).map
            (fun t => { date := d0, action := Action.Initial, ticker := t }))
          ++ eventsLoopOrd (fun l => l) (nonCashRows rows) d0 ds := by
      unfold track_portfolio_changes track_portfolio_changes_ord
      rw [hdates]
    rw [hcalc, List.filter_append]
    have h2 : (eventsLoopOrd (fun l => l) (nonCashRows rows) d0 ds).filter
        (fun e => e.action = Action.Initial) = [] := by
      rw [List.filter_eq_nil_iff]
      intro e he
      simpa using eventsLoop_no_initial (nonCashRows rows) ds d0 e he
    rw [h2, List.append_nil, filter_map_mk_same]

theorem C4_witness :
    sorted_unique_dates (scenPrev ++ scenCurr) = 1 :: [2]
    ∧ ((pairEvents (nonCashRows (scenPrev ++ scenCurr)) 1 2).filter
        (fun e => e.action = Action.Added)).map (fun e => e.ticker) = ["NEW"]
    ∧ ((track_portfolio_changes (scenPrev ++ scenCurr)).filter
        (fun e => e.action = Action.Initial)).map (fun e => e.ticker) = ["AAPL"] := by
  have h := C4_turnover_events (scenPrev ++ scenCurr) 1 2 1 [2] (by decide)
  refine ⟨by decide, ?_, ?_⟩
  · rw [h.1]
    decide
  · rw [h.2.2.2.2.2.2.2]
    decide

/-- C10: the date list of `track_portfolio_changes` is collected before the
cash filter, so a date whose rows are all cash-equivalent is still a
snapshot date with an empty non-cash ticker set: relative to any previous
date every previously held non-cash ticker is removed there, and relative
to the following date every then-present ticker is added. -/
theorem C10_all_cash_date (rows : List Row) (dPrev dAll dNext : ℕ)
    (hmem : dAll ∈ rows.map (fun r => r.date))
    (hcash : ∀ r ∈ rows, r.date = dAll → r.ticker ∈ cash_funds) :
    dAll ∈ sorted_unique_dates rows
    ∧ tickerSet (nonCashRows rows) dAll = []
    ∧ added_tickers (nonCashRows rows) dPrev dAll = []
    ∧ removed_tickers (nonCashRows rows) dPrev dAll
        = tickerSet (nonCashRows rows) dPrev
    ∧ added_tickers (nonCashRows rows) dAll dNext
        = tickerSet (nonCashRows rows) dNext := by
  have h0 : (nonCashRows rows).filter (fun r => r.date = dAll) = [] := by
    rw [List.filter_eq_nil_iff]
    intro r hr hd
    have hr2 := List.mem_filter.mp hr
    exact absurd (hcash r hr2.1 (by simpa using hd)) (by simpa using hr2.2)
  have hts : tickerSet (nonCashRows rows) dAll = [] := by
    unfold tickerSet
    rw [h0]
    rfl
  refine ⟨?_, hts, ?_, ?_, ?_⟩
  · unfold sorted_unique_dates
    exact (List.perm_insertionSort _ _).mem_iff.mpr (List.mem_dedup.mpr hmem)
  · unfold added_tickers
    rw [hts]
    rfl
  · unfold removed_tickers
    rw [hts]
    apply List.filter_eq_self.mpr
    intro t ht
    simp
  · unfold added_tickers
    rw [hts]
    apply List.filter_eq_self.mpr
    intro t ht
    simp

theorem C10_witness :
    (2 ∈ allCashMiddle.map (fun r => r.date))
    ∧ (∀ r ∈ allCashMiddle, r.date = 2 → r.ticker ∈ cash_funds)
    ∧ removed_tickers (nonCashRows allCashMiddle) 1 2 = ["AAPL"]
    ∧ added_tickers (nonCashRows allCashMiddle) 2 3 = ["AAPL"] := by
  have h := C10_all_cash_date allCashMiddle 1 2 3 (by decide) (by decide)
  refine ⟨by decide, by decide, ?_, ?_⟩
  · rw [h.2.2.2.1]
    decide
  · rw [h.2.2.2.2]
    decide

/-- C9 exhibit: the change log is NOT a function of the loaded data alone —
it depends on the iteration order of the Python sets it is built from
(string set iteration order varies with the interpreter's randomised hash
seed between runs).  Both enumerations below are valid orders of the same
sets (reversal is a permutation), yet they produce different event lists
on the same data. -/
theorem C9_event_order_depends_on_set_iteration :
    (∀ l : List String, l.reverse.Perm l)
    ∧ track_portfolio_changes_ord (fun l => l) twoTickerDay
        ≠ track_portfolio_changes_ord (fun l => l.reverse) twoTickerDay := by
  refine ⟨fun l => List.reverse_perm l, ?_⟩
  decide

theorem topk_mem {α : Type} (r : α → α → Prop) [DecidableRel r] (l : List α)
    (k : ℕ) : ∀ x ∈ (l.insertionSort r).take k, x ∈ l := by
  intro x hx
  exact (List.perm_insertionSort r l).mem_iff.mp (List.take_subset k _ hx)

theorem topk_sorted {α : Type} (r : α → α → Prop) [DecidableRel r]
    [IsTotal α r] [IsTrans α r] (l : List α) (k : ℕ) :
    List.Sorted r ((l.insertionSort r).take k) :=
  List.Pairwise.sublist (List.take_sublist k _) (List.sorted_insertionSort r l)

theorem topk_length {α : Type} (r : α → α → Prop) [DecidableRel r] (l : List α)
    (k : ℕ) : ((l.insertionSort r).take k).length = min k l.length := by
  rw [List.length_take, (List.perm_insertionSort r l).length_eq]

theorem topk_dominates {α : Type} (r : α → α → Prop) [DecidableRel r]
    [IsTotal α r] [IsTrans α r] (l : List α) (k : ℕ) (x y : α)
    (hx : x ∈ l) (hnx : x ∉ (l.insertionSort r).take k)
    (hy : y ∈ (l.insertionSort r).take k) : r y x := by
  have hxs : x ∈ l.insertionSort r := (List.perm_insertionSort r l).mem_iff.mpr hx
  have hpw : List.Pairwise r ((l.insertionSort r).take k
      ++ (l.insertionSort r).drop k) := by
    rw [List.take_append_drop]
    exact List.sorted_insertionSort r l
  have hxapp : x ∈ (l.insertionSort r).take k ++ (l.insertionSort r).drop k := by
    rw [List.take_append_drop]
    exact hxs
  have hxd : x ∈ (l.insertionSort r).drop k := by
    rcases List.mem_append.mp hxapp with h | h
    · exact absurd h hnx
    · exact h
  exact (List.pairwise_append.mp hpw).2.2 y hy x hxd

theorem C8_counterexample :
    0 < smallIncreaseRow.weight_change
    ∧ (summary_for_date [smallIncreaseRow] 1).top_weight_increases
        ≠ spec_top_increases [smallIncreaseRow] := by
  have hL : (summary_for_date [smallIncreaseRow] 1).top_weight_increases = [] := by
    norm_num [summary_for_date, smallIncreaseRow, List.filter_cons]
  have hR : spec_top_increases [smallIncreaseRow] = [smallIncreaseRow] := by
    norm_num [spec_top_increases, smallIncreaseRow, List.filter_cons,
      List.insertionSort, List.orderedInsert]
  constructor
  · norm_num [smallIncreaseRow]
  · rw [hL, hR]
    simp

/-- C8 (amended): every daily summary row reports, for its date, the total
absolute position impact, the total absolute price impact, the counts of
rows newly at nonzero and newly at zero weight, and the up-to-3 largest
weight increases among rows whose change exceeds `0.001` (resp. decreases
among rows below `-0.001`): the reported rows exceed the threshold, are
sorted, number `min 3 (count)`, and dominate every unreported
above-threshold row. -/
theorem C8_daily_summary (df : List WCRow) (s : DailySummaryRow)
    (hs : s ∈ create_daily_weight_change_summary df) :
    s.total_position_impact
      = ((df.filter (fun r => r.date = s.date)).map
          (fun r => |r.weight_change_from_position|)).sum
    ∧ s.total_price_impact
      = ((df.filter (fun r => r.date = s.date)).map
          (fun r => |r.weight_change_from_price|)).sum
    ∧ s.stocks_added
      = ((df.filter (fun r => r.date = s.date)).filter
          (fun r => r.prev_weight = 0)).length
    ∧ s.stocks_removed
      = ((df.filter (fun r => r.date = s.date)).filter
          (fun r => r.current_weight = 0)).length
    ∧ s.stocks_with_changes
      = ((df.filter (fun r => r.date = s.date)).filter
          (fun r => 1 / 10000 < |r.weight_change|)).length
    ∧ (∀ r ∈ s.top_weight_increases, 1 / 1000 < r.weight_change)
    ∧ List.Sorted wcDesc s.top_weight_increases
    ∧ s.top_weight_increases.length
      = min 3 ((df.filter (fun r => r.date = s.date)).filter
          (fun r => 1 / 1000 < r.weight_change)).length
    ∧ (∀ r ∈ df.filter (fun r => r.date = s.date), 1 / 1000 < r.weight_change →
        r ∉ s.top_weight_increases →
        ∀ r2 ∈ s.top_weight_increases, r.weight_change ≤ r2.weight_change)
    ∧ (∀ r ∈ s.top_weight_decreases, r.weight_change < -(1 / 1000))
    ∧ List.Sorted wcAsc s.top_weight_decreases
    ∧ s.top_weight_decreases.length
      = min 3 ((df.filter (fun r => r.date = s.date)).filter
          (fun r => r.weight_change < -(1 / 1000))).length
    ∧ (∀ r ∈ df.filter (fun r => r.date = s.date),
        r.weight_change < -(1 / 1000) → r ∉ s.top_weight_decreases →
        ∀ r2 ∈ s.top_weight_decreases, r2.weight_change ≤ r.weight_change) := by
  rcases List.mem_map.mp hs with ⟨d, -, heq⟩
  have hdate : s.date = d := by rw [← heq]; rfl
  rw [hdate, ← heq]
  simp only [summary_for_date]
  refine ⟨trivial, trivial, trivial, trivial, trivial, ?_, topk_sorted _ _ _,
    ?_, ?_, ?_, topk_sorted _ _ _, ?_, ?_⟩
  · intro r hr
    have := topk_mem wcDesc _ 3 r hr
    simpa using List.of_mem_filter this
  · exact topk_length _ _ _
  · intro r hr hcond hnotin r2 hr2
    exact topk_dominates wcDesc _ 3 r r2
      (List.mem_filter.mpr ⟨hr, by simpa using hcond⟩) hnotin hr2
  · intro r hr
    have := topk_mem wcAsc _ 3 r hr
    simpa using List.of_mem_filter this
  · exact topk_length _ _ _
  · intro r hr hcond hnotin r2 hr2
    exact topk_dominates wcAsc _ 3 r r2
      (List.mem_filter.mpr ⟨hr, by simpa using hcond⟩) hnotin hr2

theorem C8_witness :
    (summary_for_date [bigIncreaseRow] 1
        ∈ create_daily_weight_change_summary [bigIncreaseRow])
    ∧ (summary_for_date [bigIncreaseRow] 1).total_position_impact
        = (([bigIncreaseRow].filter
            (fun r => r.date = (summary_for_date [bigIncreaseRow] 1).date)).map
          (fun r => |r.weight_change_from_position|)).sum := by
  have hs : summary_for_date [bigIncreaseRow] 1
      ∈ create_daily_weight_change_summary [bigIncreaseRow] := by
    simp [create_daily_weight_change_summary, List.filter_cons, bigIncreaseRow]
  exact ⟨hs, (C8_daily_summary [bigIncreaseRow] _ hs).1⟩

end HHI
